import Mathlib

/-!
Verification of the metadata-translation sync tool
(`sync_addon_metadata_translations/__main__.py`).

The functions below are shallow embeddings of the Python source.  File
contents are modelled as the `readlines()` representation: a `List String`
where each element is one line, normally ending in a newline character
(the last line of a file with no terminating newline lacks it).  Python
`str` operations used by the source (`in`, `startswith`, `strip`,
`replace`, `split`, slicing) are embedded as executable functions over
`String`/`List Char` with Python semantics.
-/

namespace SamtSync

/-- Python `needle in hay` substring test, over character lists. -/
def listContainsSub (needle : List Char) : List Char → Bool
  | [] => needle.isEmpty
  | c :: t => needle.isPrefixOf (c :: t) || listContainsSub needle t

/-- Python `needle in hay` for strings. -/
def strContains (hay needle : String) : Bool :=
  listContainsSub needle.data hay.data

/-- Python `s.startswith(pre)`. -/
def strStartsWith (s pre : String) : Bool :=
  pre.data.isPrefixOf s.data

/-- Python whitespace characters recognised by `str.strip()` (ASCII). -/
def isPySpace (c : Char) : Bool :=
  c = ' ' || c = '\t' || c = '\n' || c = '\x0d' || c = '\x0b' || c = '\x0c'

/-- Python `not line.strip()`: the line consists only of whitespace. -/
def isBlankStr (s : String) : Bool :=
  s.data.all isPySpace

/-- Helper for `replaceList`: structural recursion on a fuel argument
(each step consumes at least one character, so fuel equal to the input
length is always sufficient). -/
def replaceAux (pat rep : List Char) : Nat → List Char → List Char
  | _, [] => []
  | 0, s => s
  | fuel + 1, c :: rest =>
    if pat.isPrefixOf (c :: rest) then
      rep ++ replaceAux pat rep fuel (rest.drop (pat.length - 1))
    else
      c :: replaceAux pat rep fuel rest

/-- Python `s.replace(pat, rep)` on character lists: left-to-right,
non-overlapping replacement of every occurrence (patterns here are
always nonempty). -/
def replaceList (pat rep s : List Char) : List Char :=
  replaceAux pat rep s.length s

/-- Python `s.replace(pat, rep)` for strings. -/
def pyReplace (s pat rep : String) : String :=
  ⟨replaceList pat.data rep.data s.data⟩

/-- Python slice index resolution: `l[:i]` / `l[i:]` for a possibly
negative `i`. -/
def pyIdx (len : Nat) (i : Int) : Nat :=
  if i < 0 then (max 0 ((len : Int) + i)).toNat else min i.toNat len

/-- Python `l[:i]` (supports negative `i`). -/
def pySliceTo (l : List String) (i : Int) : List String :=
  l.take (pyIdx l.length i)

/-- Python `l[i:]` (supports negative `i`). -/
def pySliceFrom (l : List String) (i : Int) : List String :=
  l.drop (pyIdx l.length i)

/-! ## Source constants (module-level constants of `__main__.py`) -/

/-- CTXT_DESCRIPTION -/
def CTXT_DESCRIPTION : String := "Addon Description"

/-- CTXT_DISCLAIMER -/
def CTXT_DISCLAIMER : String := "Addon Disclaimer"

/-- CTXT_SUMMARY -/
def CTXT_SUMMARY : String := "Addon Summary"

/-- CTXT_LIFECYCLESTATE -/
def CTXT_LIFECYCLESTATE : String := "Addon Lifecyclestate"

/-- POTPL_MSGCTXT applied to its `string` field. -/
def POTPL_MSGCTXT (s : String) : String := "msgctxt \"" ++ s ++ "\"\n"

/-- POTPL_MSGID applied to its `string` field. -/
def POTPL_MSGID (s : String) : String := "msgid \"" ++ s ++ "\"\n"

/-- POTPL_MSGSTR applied to its `string` field. -/
def POTPL_MSGSTR (s : String) : String := "msgstr \"" ++ s ++ "\"\n"

/-- XMLTPL_SUMMARY applied to its fields. -/
def XMLTPL_SUMMARY (whitespace language_code body : String) : String :=
  whitespace ++ "<summary lang=\"" ++ language_code ++ "\">" ++ body ++ "</summary>\n"

/-- XMLTPL_DESCRIPTION applied to its fields. -/
def XMLTPL_DESCRIPTION (whitespace language_code body : String) : String :=
  whitespace ++ "<description lang=\"" ++ language_code ++ "\">" ++ body ++ "</description>\n"

/-! ## merge_items (lines 470-485) -/

/-- `merge_items(group_one, group_two)`: the Python loop keeps a
`payload` list initialised to a copy of `group_one` and appends each
item of `group_two` whose first component does not already occur as a
first component in the *current* `payload`.  The loop is embedded as a
recursion whose first argument is the accumulated `payload`. -/
def merge_items (group_one group_two : List (String × String)) :
    List (String × String) :=
  match group_two with
  | [] => group_one
  | group_item :: rest =>
    if group_one.any (fun item => item.1 == group_item.1) then
      merge_items group_one rest
    else
      merge_items (group_one ++ [group_item]) rest

lemma anyKey_eq_true_iff (l : List (String × String)) (k : String) :
    (l.any (fun item => item.1 == k) = true) ↔ k ∈ l.map Prod.fst := by
  rw [List.any_eq_true]
  constructor
  · rintro ⟨p, hp, he⟩
    exact List.mem_map.mpr ⟨p, hp, beq_iff_eq.mp he⟩
  · intro h
    obtain ⟨p, hp, he⟩ := List.mem_map.mp h
    exact ⟨p, hp, beq_iff_eq.mpr he⟩

/-- Every element of `group_one` is an element of the merge result. -/
lemma merge_items_mem_left (g1 g2 : List (String × String)) :
    ∀ p ∈ g1, p ∈ merge_items g1 g2 := by
  induction g2 generalizing g1 with
  | nil => simp [merge_items]
  | cons gi rest ih =>
    intro p hp
    unfold merge_items
    by_cases h : g1.any (fun item => item.1 == gi.1) = true
    · simp only [h, if_true]
      exact ih g1 p hp
    · simp only [h, if_false]
      exact ih (g1 ++ [gi]) p (List.mem_append_left _ hp)

/-- When the keys of `group_two` are pairwise distinct, the merge is
`group_one` followed by exactly the entries of `group_two` whose key is
absent from `group_one`. -/
lemma merge_items_eq_append (g1 g2 : List (String × String))
    (hg2 : (g2.map Prod.fst).Nodup) :
    merge_items g1 g2 =
      g1 ++ g2.filter (fun b => !(g1.any (fun item => item.1 == b.1))) := by
  induction g2 generalizing g1 with
  | nil => simp [merge_items]
  | cons gi rest ih =>
    simp only [List.map_cons, List.nodup_cons] at hg2
    obtain ⟨hgi, hrest⟩ := hg2
    unfold merge_items
    by_cases h : g1.any (fun item => item.1 == gi.1) = true
    · rw [if_pos h, ih g1 hrest]
      have h2 : (!(g1.any fun item => item.1 == gi.1)) = false := by
        rw [h]; rfl
      simp [List.filter_cons, h2]
    · have hb : (g1.any fun item => item.1 == gi.1) = false := by
        revert h; cases g1.any fun item => item.1 == gi.1 <;> simp
      rw [if_neg h, ih (g1 ++ [gi]) hrest]
      have hfix : ∀ b ∈ rest,
          (fun x => !((g1 ++ [gi]).any fun item => item.1 == x.1)) b =
            (fun x => !(g1.any fun item => item.1 == x.1)) b := by
        intro b hbm
        have hne : gi.1 ≠ b.1 := by
          intro he
          exact hgi (he ▸ (List.mem_map.mpr ⟨b, hbm, rfl⟩))
        simp [List.any_append, hne]
      rw [List.filter_congr hfix]
      simp [List.filter_cons, hb, List.append_assoc]

/-- C2: the claim fails on duplicate language codes.  With A containing
the key "a" twice the result contains the key "a" twice (not "exactly
once"), and with B containing the key "a" twice (and A empty) only B's
first entry is appended, not "exactly those entries of B whose language
code does not occur in A". -/
theorem merge_items_union_counterexample :
    merge_items [("a", "x"), ("a", "y")] [] = [("a", "x"), ("a", "y")]
      ∧ ¬ (((merge_items [("a", "x"), ("a", "y")] []).map Prod.fst).Nodup)
      ∧ merge_items [] [("a", "x"), ("a", "y")] = [("a", "x")]
      ∧ merge_items [] [("a", "x"), ("a", "y")] ≠
          [] ++ [("a", "x"), ("a", "y")] := by
  refine ⟨by decide, by decide, by decide, by decide⟩

/-- C2 (amended): when the language codes within A are pairwise distinct
and likewise within B, merge_items(A, B) returns A's entries unchanged
and in order followed by exactly those entries of B whose language code
does not occur in A; the result contains every language key of A or B
exactly once, and A's entries (hence A's text) are kept whenever A has
the key. -/
theorem merge_items_union (A B : List (String × String))
    (hA : (A.map Prod.fst).Nodup) (hB : (B.map Prod.fst).Nodup) :
    merge_items A B =
        A ++ B.filter (fun b => !(A.any fun item => item.1 == b.1))
      ∧ ((merge_items A B).map Prod.fst).Nodup
      ∧ (∀ k, k ∈ (merge_items A B).map Prod.fst ↔
          (k ∈ A.map Prod.fst ∨ k ∈ B.map Prod.fst))
      ∧ (∀ p ∈ A, p ∈ merge_items A B) := by
  have he := merge_items_eq_append A B hB
  have hfilterkeys : ∀ k,
      k ∈ ((B.filter fun b => !(A.any fun item => item.1 == b.1)).map Prod.fst)
        ↔ (k ∈ B.map Prod.fst ∧ k ∉ A.map Prod.fst) := by
    intro k
    constructor
    · intro hk
      obtain ⟨b, hb, rfl⟩ := List.mem_map.mp hk
      have hmf := List.mem_filter.mp hb
      refine ⟨List.mem_map.mpr ⟨b, hmf.1, rfl⟩, ?_⟩
      intro hmem
      have hany := (anyKey_eq_true_iff A b.1).mpr hmem
      have := hmf.2
      rw [hany] at this
      exact absurd this (by decide)
    · rintro ⟨hkB, hkA⟩
      obtain ⟨b, hb, rfl⟩ := List.mem_map.mp hkB
      refine List.mem_map.mpr ⟨b, List.mem_filter.mpr ⟨hb, ?_⟩, rfl⟩
      have hfalse : (A.any fun item => item.1 == b.1) = false := by
        cases hc : (A.any fun item => item.1 == b.1)
        · rfl
        · exact absurd ((anyKey_eq_true_iff A b.1).mp hc) hkA
      rw [hfalse]; rfl
  refine ⟨he, ?_, ?_, merge_items_mem_left A B⟩
  · rw [he, List.map_append, List.nodup_append]
    refine ⟨hA, ?_, ?_⟩
    · exact List.Nodup.sublist ((List.filter_sublist B).map Prod.fst) hB
    · intro k hkA hkF
      exact ((hfilterkeys k).mp hkF).2 hkA
  · intro k
    rw [he, List.map_append, List.mem_append, hfilterkeys k]
    tauto

/-- C2 witness: the amended union theorem evaluated on concrete lists
with one shared language key. -/
theorem merge_items_union_witness :
    merge_items [("en_GB", "hello")] [("en_GB", "bonjour"), ("fr_FR", "salut")] =
        [("en_GB", "hello")] ++
          ([("en_GB", "bonjour"), ("fr_FR", "salut")].filter
            (fun b => !([("en_GB", "hello")].any fun item => item.1 == b.1)))
      ∧ ((merge_items [("en_GB", "hello")]
            [("en_GB", "bonjour"), ("fr_FR", "salut")]).map Prod.fst).Nodup
      ∧ (∀ k, k ∈ (merge_items [("en_GB", "hello")]
            [("en_GB", "bonjour"), ("fr_FR", "salut")]).map Prod.fst ↔
          (k ∈ [("en_GB", "hello")].map Prod.fst ∨
            k ∈ [("en_GB", "bonjour"), ("fr_FR", "salut")].map Prod.fst))
      ∧ (∀ p ∈ [("en_GB", "hello")],
          p ∈ merge_items [("en_GB", "hello")]
            [("en_GB", "bonjour"), ("fr_FR", "salut")]) :=
  merge_items_union [("en_GB", "hello")] [("en_GB", "bonjour"), ("fr_FR", "salut")]
    (by decide) (by decide)

/-! ## escape_characters (lines 763-790) -/

/-- The per-string transform of `escape_characters(source, dest='po')`:
`string.replace('&quot;', '\\"')`. -/
def escapeStringPo (s : String) : String :=
  pyReplace s "&quot;" "\\\""

/-- The per-string transform of `escape_characters(source, dest='xml')`:
the five chained `replace` calls, in source order (quote, apostrophe,
angle brackets, then ampersand last). -/
def escapeStringXml (s : String) : String :=
  pyReplace
    (pyReplace
      (pyReplace
        (pyReplace
          (pyReplace s "\"" "&quot;")
          "'" "&apos;")
        "<" "&lt;")
      ">" "&gt;")
    "&" "&amp;"

/-- `escape_characters(source, dest)`: any `dest` other than "xml" or
"po" falls back to "po"; the matching per-string transform is mapped
over the second components. -/
def escape_characters (source : List (String × String)) (dest : String) :
    List (String × String) :=
  let dest2 := if dest ≠ "xml" ∧ dest ≠ "po" then "po" else dest
  if dest2 = "po" then
    source.map (fun p => (p.1, escapeStringPo p.2))
  else
    source.map (fun p => (p.1, escapeStringXml p.2))

/-- C3: the two escaping transforms are not mutually inverse.  On the
one-character string consisting of a double quote, the to-manifest
escape produces "&amp;quot;" (the final ampersand replacement re-escapes
the entity introduced by the first replacement), and the to-catalog
escape leaves "&amp;quot;" unchanged, so neither composition restores
the original; the other order fails on "&quot;" as well.  This is the
evaluation of the code at the failing inputs. -/
theorem escape_characters_not_inverse :
    escape_characters [("en_GB", "\"")] "xml" = [("en_GB", "&amp;quot;")]
      ∧ escape_characters [("en_GB", "&amp;quot;")] "po" = [("en_GB", "&amp;quot;")]
      ∧ escapeStringPo (escapeStringXml "\"") ≠ "\""
      ∧ escape_characters [("en_GB", "&quot;")] "po" = [("en_GB", "\\\"")]
      ∧ escape_characters [("en_GB", "\\\"")] "xml" = [("en_GB", "\\&amp;quot;")]
      ∧ escapeStringXml (escapeStringPo "&quot;") ≠ "&quot;" := by
  refine ⟨by decide, by decide, by decide, by decide, by decide, by decide⟩

/-! ## Merge priority in xml_to_po (lines 793-837) and po_to_xml (893-896) -/

/-- The merge-selection step of `xml_to_po` for one field (lines
805-806 and 828-837): a priority outside {"xml", "po"} falls back to
"xml"; with priority "xml" the manifest items are the first (primary)
argument of `merge_items`, with priority "po" the catalog items are. -/
def xml_to_po_merge (xml_items po_items : List (String × String))
    (priority : String) : List (String × String) :=
  let priority2 := if priority ≠ "xml" ∧ priority ≠ "po" then "xml" else priority
  if priority2 = "xml" then
    merge_items xml_items po_items
  else
    merge_items po_items xml_items

/-- The merge-selection step of `xml_to_po` with the `priority`
parameter left at its default value, which the source declares as
`priority='xml'`. -/
def xml_to_po_merge_default (xml_items po_items : List (String × String)) :
    List (String × String) :=
  xml_to_po_merge xml_items po_items "xml"

/-- The merge step of `po_to_xml` for one field (lines 893-896): the
catalog items are always the first (primary) argument. -/
def po_to_xml_merge (po_items xml_items : List (String × String)) :
    List (String × String) :=
  merge_items po_items xml_items

/-- C4 counterexample: with the priority parameter left at its default,
a language present on both sides keeps the manifest value, not the
catalog value — the default makes manifest data primary. -/
theorem xml_to_po_priority_counterexample :
    xml_to_po_merge_default [("en_GB", "manifest text")] [("en_GB", "catalog text")] =
        [("en_GB", "manifest text")]
      ∧ xml_to_po_merge_default [("en_GB", "manifest text")] [("en_GB", "catalog text")] ≠
          [("en_GB", "catalog text")] := by
  refine ⟨by decide, by decide⟩

/-- C4 (amended): with the priority parameter left at its default
("xml"), xml_to_po's merge makes manifest-side data primary, so for a
language present on both sides the manifest entry is kept; the priority
switch "po" makes catalog-side data primary instead; po_to_xml's merge
always makes catalog-side data primary. -/
theorem xml_to_po_priority (xml_items po_items : List (String × String))
    (k tx tp : String) (hx : (k, tx) ∈ xml_items) (hp : (k, tp) ∈ po_items) :
    xml_to_po_merge_default xml_items po_items = merge_items xml_items po_items
      ∧ xml_to_po_merge xml_items po_items "po" = merge_items po_items xml_items
      ∧ po_to_xml_merge po_items xml_items = merge_items po_items xml_items
      ∧ (k, tx) ∈ xml_to_po_merge_default xml_items po_items
      ∧ (k, tp) ∈ xml_to_po_merge xml_items po_items "po"
      ∧ (k, tp) ∈ po_to_xml_merge po_items xml_items := by
  refine ⟨rfl, rfl, rfl, ?_, ?_, ?_⟩
  · exact merge_items_mem_left xml_items po_items _ hx
  · exact merge_items_mem_left po_items xml_items _ hp
  · exact merge_items_mem_left po_items xml_items _ hp

/-- C4 witness: the amended priority theorem evaluated on concrete
one-entry lists sharing the language "en_GB". -/
theorem xml_to_po_priority_witness :
    xml_to_po_merge_default [("en_GB", "M")] [("en_GB", "C")] =
        merge_items [("en_GB", "M")] [("en_GB", "C")]
      ∧ xml_to_po_merge [("en_GB", "M")] [("en_GB", "C")] "po" =
          merge_items [("en_GB", "C")] [("en_GB", "M")]
      ∧ po_to_xml_merge [("en_GB", "C")] [("en_GB", "M")] =
          merge_items [("en_GB", "C")] [("en_GB", "M")]
      ∧ ("en_GB", "M") ∈ xml_to_po_merge_default [("en_GB", "M")] [("en_GB", "C")]
      ∧ ("en_GB", "C") ∈ xml_to_po_merge [("en_GB", "M")] [("en_GB", "C")] "po"
      ∧ ("en_GB", "C") ∈ po_to_xml_merge [("en_GB", "C")] [("en_GB", "M")] :=
  xml_to_po_priority [("en_GB", "M")] [("en_GB", "C")] "en_GB" "M" "C"
    (by decide) (by decide)

/-! ## xml_remove_elements (lines 227-254) -/

/-- The removal criterion of `xml_remove_elements`: the line contains
one of the four managed opening-tag substrings. -/
def isManagedXmlLine (line : String) : Bool :=
  strContains line "<description lang=" ||
  strContains line "<disclaimer lang=" ||
  strContains line "<summary lang=" ||
  strContains line "<lifecyclestate "

/-- The loop of `xml_remove_elements`, with the accumulated `new_lines`
as an explicit argument. -/
def xre_aux : List String → List String → List String
  | [], acc => acc
  | line :: rest, acc =>
    if isManagedXmlLine line then xre_aux rest acc
    else xre_aux rest (acc ++ [line])

/-- `xml_remove_elements` on the `content_lines` of the manifest: drop
every line containing one of the four managed opening-tag substrings
and keep everything else (the dict is updated with `new_lines` exactly
when it differs, so the resulting `content_lines` are `new_lines` in
either case). -/
def xml_remove_elements (content_lines : List String) : List String :=
  xre_aux content_lines []

lemma xre_aux_eq (ls acc : List String) :
    xre_aux ls acc = acc ++ ls.filter (fun l => !isManagedXmlLine l) := by
  induction ls generalizing acc with
  | nil => simp [xre_aux]
  | cons line rest ih =>
    by_cases h : isManagedXmlLine line = true
    · have h2 : (!isManagedXmlLine line) = false := by rw [h]; rfl
      simp [xre_aux, h, List.filter_cons, h2, ih]
    · have hb : isManagedXmlLine line = false := by
        revert h; cases isManagedXmlLine line <;> simp
      simp [xre_aux, hb, List.filter_cons, ih, List.append_assoc]

/-- `xml_remove_elements` keeps exactly the non-managed lines,
byte-identical and in order. -/
lemma xml_remove_elements_eq_filter (ls : List String) :
    xml_remove_elements ls = ls.filter (fun l => !isManagedXmlLine l) := by
  simp [xml_remove_elements, xre_aux_eq]

/-! ## get_xml_insert_index (lines 446-467) -/

/-- The opening-anchor criterion: the line contains both "<extension"
and "xbmc.addon.metadata". -/
def isMetadataOpenLine (line : String) : Bool :=
  strContains line "<extension" && strContains line "xbmc.addon.metadata"

/-- The closing-anchor criterion: the line contains "</extension>". -/
def isExtensionCloseLine (line : String) : Bool :=
  strContains line "</extension>"

/-- The loop of `get_xml_insert_index`: `acc` is the running
`insert_line` (initially -1), `idx` the enumeration index.  On an
opening line `insert_line` becomes `index + 1`; then (still on the same
line) if `insert_line > -1` and the line contains the closing element,
`index` is returned immediately. -/
def gxii_aux : List String → Nat → Int → Int
  | [], _, acc => acc
  | line :: rest, idx, acc =>
    let acc2 := if isMetadataOpenLine line then (idx : Int) + 1 else acc
    if decide (acc2 > -1) && isExtensionCloseLine line then (idx : Int)
    else gxii_aux rest (idx + 1) acc2

/-- `get_xml_insert_index`: `none` models the raised exception
("Unable to determine addon.xml insert index") for `insert_line == -1`. -/
def get_xml_insert_index (content_lines : List String) : Option Int :=
  let r := gxii_aux content_lines 0 (-1)
  if r = -1 then none else some r

lemma gxii_none (lines : List String) :
    ∀ idx, (∀ s ∈ lines, isMetadataOpenLine s = false) →
      gxii_aux lines idx (-1) = -1 := by
  induction lines with
  | nil => intro idx _; rfl
  | cons line rest ih =>
    intro idx h
    have hline : isMetadataOpenLine line = false := h line (by simp)
    have hrest := ih (idx + 1) (fun s hs => h s (by simp [hs]))
    simp [gxii_aux, hline, hrest]

lemma gxii_nonneg (lines : List String) :
    ∀ idx acc, 0 ≤ acc → 0 ≤ gxii_aux lines idx acc := by
  induction lines with
  | nil => intro idx acc h; exact h
  | cons line rest ih =>
    intro idx acc h
    cases hopen : isMetadataOpenLine line with
    | true =>
      cases hclose : isExtensionCloseLine line with
      | true =>
        simp only [gxii_aux, hopen, hclose]
        rw [if_pos (by simp; omega)]
        positivity
      | false =>
        have := ih (idx + 1) ((idx : Int) + 1) (by positivity)
        simp [gxii_aux, hopen, hclose, this]
    | false =>
      cases hclose : isExtensionCloseLine line with
      | true =>
        by_cases hacc : acc > -1
        · simp [gxii_aux, hopen, hclose, hacc]
        · have := ih (idx + 1) acc h
          simp [gxii_aux, hopen, hclose, hacc, this]
      | false =>
        have := ih (idx + 1) acc h
        simp [gxii_aux, hopen, hclose, this]

lemma gxii_open_nonneg (lines : List String) :
    ∀ idx acc, (∃ s ∈ lines, isMetadataOpenLine s = true) →
      0 ≤ gxii_aux lines idx acc := by
  induction lines with
  | nil => rintro idx acc ⟨s, hs, _⟩; exact absurd hs (List.not_mem_nil s)
  | cons line rest ih =>
    rintro idx acc ⟨s, hs, hsopen⟩
    cases hopen : isMetadataOpenLine line with
    | true =>
      cases hclose : isExtensionCloseLine line with
      | true =>
        simp only [gxii_aux, hopen, hclose]
        rw [if_pos (by simp; omega)]
        positivity
      | false =>
        have := gxii_nonneg rest (idx + 1) ((idx : Int) + 1) (by positivity)
        simp [gxii_aux, hopen, hclose, this]
    | false =>
      have hmem : s ∈ rest := by
        rcases List.mem_cons.mp hs with rfl | hmem
        · rw [hopen] at hsopen; exact absurd hsopen (by simp)
        · exact hmem
      have hrec := ih (idx + 1) acc ⟨s, hmem, hsopen⟩
      cases hclose : isExtensionCloseLine line with
      | true =>
        by_cases hacc : acc > -1
        · simp [gxii_aux, hopen, hclose, hacc]
        · simp [gxii_aux, hopen, hclose, hacc, hrec]
      | false =>
        simp [gxii_aux, hopen, hclose, hrec]

lemma gxii_char (lines : List String) :
    ∀ (idx : Nat) (acc : Int),
      gxii_aux lines idx acc = acc
      ∨ (∃ (i : Nat) (s : String), lines[i]? = some s ∧
          isMetadataOpenLine s = true ∧
          gxii_aux lines idx acc = (idx : Int) + (i : Int) + 1)
      ∨ (∃ (j : Nat) (s : String), lines[j]? = some s ∧
          isExtensionCloseLine s = true ∧
          gxii_aux lines idx acc = (idx : Int) + (j : Int) ∧
          (0 ≤ acc ∨ ∃ (i : Nat), i ≤ j ∧ ∃ (t : String),
            lines[i]? = some t ∧ isMetadataOpenLine t = true)) := by
  induction lines with
  | nil => intro idx acc; left; rfl
  | cons line rest ih =>
    intro idx acc
    cases hopen : isMetadataOpenLine line with
    | true =>
      cases hclose : isExtensionCloseLine line with
      | true =>
        right; right
        refine ⟨0, line, by simp, hclose, ?_,
          Or.inr ⟨0, le_refl 0, line, by simp, hopen⟩⟩
        simp only [gxii_aux, hopen, hclose]
        rw [if_pos (by simp; omega)]
        simp
      | false =>
        have hrw : gxii_aux (line :: rest) idx acc =
            gxii_aux rest (idx + 1) ((idx : Int) + 1) := by
          simp [gxii_aux, hopen, hclose]
        rcases ih (idx + 1) ((idx : Int) + 1) with h |
          ⟨i, s, hget, hio, hval⟩ | ⟨j, s, hget, hic, hval, _⟩
        · right; left
          refine ⟨0, line, by simp, hopen, ?_⟩
          rw [hrw, h]; simp
        · right; left
          refine ⟨i + 1, s, by rw [List.getElem?_cons_succ]; exact hget, hio, ?_⟩
          rw [hrw, hval]; push_cast; ring
        · right; right
          refine ⟨j + 1, s, by rw [List.getElem?_cons_succ]; exact hget, hic, ?_, ?_⟩
          · rw [hrw, hval]; push_cast; ring
          · exact Or.inr ⟨0, by omega, line, by simp, hopen⟩
    | false =>
      cases hclose : isExtensionCloseLine line with
      | true =>
        by_cases hacc : acc > -1
        · right; right
          refine ⟨0, line, by simp, hclose, ?_, Or.inl (by omega)⟩
          simp only [gxii_aux, hopen, hclose]
          rw [if_pos (by simp [hacc])]
          simp
        · have hrw : gxii_aux (line :: rest) idx acc =
              gxii_aux rest (idx + 1) acc := by
            simp [gxii_aux, hopen, hclose, hacc]
          rcases ih (idx + 1) acc with h |
            ⟨i, s, hget, hio, hval⟩ | ⟨j, s, hget, hic, hval, hside⟩
          · left; rw [hrw, h]
          · right; left
            refine ⟨i + 1, s, by rw [List.getElem?_cons_succ]; exact hget, hio, ?_⟩
            rw [hrw, hval]; push_cast; ring
          · right; right
            refine ⟨j + 1, s, by rw [List.getElem?_cons_succ]; exact hget, hic, ?_, ?_⟩
            · rw [hrw, hval]; push_cast; ring
            · rcases hside with h0 | ⟨i, hij, t, hgt, hot⟩
              · exact Or.inl h0
              · exact Or.inr ⟨i + 1, by omega, t, by rw [List.getElem?_cons_succ]; exact hgt, hot⟩
      | false =>
        have hrw : gxii_aux (line :: rest) idx acc =
            gxii_aux rest (idx + 1) acc := by
          simp [gxii_aux, hopen, hclose]
        rcases ih (idx + 1) acc with h |
          ⟨i, s, hget, hio, hval⟩ | ⟨j, s, hget, hic, hval, hside⟩
        · left; rw [hrw, h]
        · right; left
          refine ⟨i + 1, s, by rw [List.getElem?_cons_succ]; exact hget, hio, ?_⟩
          rw [hrw, hval]; push_cast; ring
        · right; right
          refine ⟨j + 1, s, by rw [List.getElem?_cons_succ]; exact hget, hic, ?_, ?_⟩
          · rw [hrw, hval]; push_cast; ring
          · rcases hside with h0 | ⟨i, hij, t, hgt, hot⟩
            · exact Or.inl h0
            · exact Or.inr ⟨i + 1, by omega, t, by rw [List.getElem?_cons_succ]; exact hgt, hot⟩

/-- C6: get_xml_insert_index fails (raises, modelled as `none`) if and
only if no line contains a metadata-extension opening element; when it
returns a value, that value is non-negative and is either the index of
the line following an opening-element line, or the index of a
closing-element line that comes at or after an opening-element line
(the "pull back to the matching closing element" case). -/
theorem get_xml_insert_index_spec (lines : List String) :
    (get_xml_insert_index lines = none ↔
      ∀ s ∈ lines, isMetadataOpenLine s = false)
    ∧ (∀ n : Int, get_xml_insert_index lines = some n →
        0 ≤ n ∧
          ((∃ (i : Nat) (s : String), lines[i]? = some s ∧
              isMetadataOpenLine s = true ∧ n = (i : Int) + 1)
            ∨ (∃ (j : Nat) (s : String), lines[j]? = some s ∧
                isExtensionCloseLine s = true ∧ n = (j : Int) ∧
                ∃ (i : Nat), i ≤ j ∧ ∃ (t : String), lines[i]? = some t ∧
                  isMetadataOpenLine t = true))) := by
  constructor
  · constructor
    · intro hnone s hs
      by_contra hne
      have hsopen : isMetadataOpenLine s = true := by
        revert hne; cases isMetadataOpenLine s <;> simp
      have hge := gxii_open_nonneg lines 0 (-1) ⟨s, hs, hsopen⟩
      unfold get_xml_insert_index at hnone
      by_cases h : gxii_aux lines 0 (-1) = -1
      · rw [h] at hge; exact absurd hge (by norm_num)
      · rw [if_neg h] at hnone
        exact Option.some_ne_none _ hnone
    · intro h
      unfold get_xml_insert_index
      rw [gxii_none lines 0 h]
      rfl
  · intro n hn
    unfold get_xml_insert_index at hn
    by_cases h : gxii_aux lines 0 (-1) = -1
    · rw [if_pos h] at hn
      exact absurd hn (by simp)
    · rw [if_neg h] at hn
      have hval : gxii_aux lines 0 (-1) = n := Option.some.inj hn
      rcases gxii_char lines 0 (-1) with hc |
        ⟨i, s, hget, hio, hv⟩ | ⟨j, s, hget, hic, hv, hside⟩
      · exact absurd hc h
      · refine ⟨?_, Or.inl ⟨i, s, hget, hio, ?_⟩⟩
        · rw [← hval, hv]; push_cast; omega
        · rw [← hval, hv]; push_cast; ring
      · rcases hside with h0 | hopen2
        · exact absurd h0 (by norm_num)
        · refine ⟨?_, Or.inr ⟨j, s, hget, hic, ?_, hopen2⟩⟩
          · rw [← hval, hv]; push_cast; omega
          · rw [← hval, hv]; push_cast; ring

/-- C6 witness: the characterization applied to a concrete manifest
whose metadata extension opens on line 1 and closes on line 2. -/
theorem get_xml_insert_index_spec_witness :
    (0 : Int) ≤ 2 ∧
      ((∃ (i : Nat) (s : String),
          (["<foo/>\n", "<extension point=\"xbmc.addon.metadata\">\n",
            "</extension>\n"] : List String)[i]? = some s ∧
          isMetadataOpenLine s = true ∧ (2 : Int) = (i : Int) + 1)
        ∨ (∃ (j : Nat) (s : String),
            (["<foo/>\n", "<extension point=\"xbmc.addon.metadata\">\n",
              "</extension>\n"] : List String)[j]? = some s ∧
            isExtensionCloseLine s = true ∧ (2 : Int) = (j : Int) ∧
            ∃ (i : Nat), i ≤ j ∧ ∃ (t : String),
              (["<foo/>\n", "<extension point=\"xbmc.addon.metadata\">\n",
                "</extension>\n"] : List String)[i]? = some t ∧
              isMetadataOpenLine t = true)) :=
  (get_xml_insert_index_spec
    ["<foo/>\n", "<extension point=\"xbmc.addon.metadata\">\n",
      "</extension>\n"]).2 2 (by decide)

/-! ## remove_po_lines (lines 567-625) -/

/-- The `ctxt_targets` tuple of `remove_po_lines` (lines 577-582). -/
def ctxt_targets : List String :=
  ["msgctxt \"" ++ CTXT_SUMMARY ++ "\"",
   "msgctxt \"" ++ CTXT_DESCRIPTION ++ "\"",
   "msgctxt \"" ++ CTXT_DISCLAIMER ++ "\"",
   "msgctxt \"" ++ CTXT_LIFECYCLESTATE ++ "\""]

/-- Python `line.startswith(ctxt_targets)` (a tuple argument means: any
of them is a prefix). -/
def startsCtxtTarget (line : String) : Bool :=
  ctxt_targets.any (fun t => strStartsWith line t)

/-- The three flags of the `remove_po_lines` loop. -/
structure RPLState where
  msgctxt : Bool
  msgid : Bool
  msgstr : Bool
deriving DecidableEq

/-- The initial flag state (all False). -/
def rplInit : RPLState := ⟨false, false, false⟩

/-- One iteration of the `remove_po_lines` loop body: returns the next
state and whether the line reaches the final `append` (the Python
`continue` statements are the `false` results). -/
def rpl_step (s : RPLState) (line : String) : RPLState × Bool :=
  if !s.msgctxt && startsCtxtTarget line then
    (⟨true, s.msgid, s.msgstr⟩, false)
  else if s.msgctxt && !s.msgid then
    (⟨s.msgctxt, strStartsWith line "msgid " || s.msgid, s.msgstr⟩, false)
  else if s.msgid && !s.msgstr then
    (⟨s.msgctxt, s.msgid, strStartsWith line "msgstr "⟩, false)
  else if s.msgctxt && s.msgid && s.msgstr then
    if isBlankStr line then (⟨false, false, false⟩, false)
    else if strStartsWith line "\"" then (s, false)
    else (⟨false, false, false⟩, true)
  else (s, true)

/-- The `remove_po_lines` loop over one file's lines: kept lines and
final state. -/
def rpl_run : RPLState → List String → List String × RPLState
  | s, [] => ([], s)
  | s, line :: rest =>
    let step := rpl_step s line
    let r := rpl_run step.1 rest
    (if step.2 then line :: r.1 else r.1, r.2)

/-- `remove_po_lines` restricted to one file's `content_lines` (the
body of the per-file loop; the enclosing loop maps this over the
index, see `remove_po_lines_index`). -/
def remove_po_lines (content_lines : List String) : List String :=
  (rpl_run rplInit content_lines).1

/-- A po/manifest document of the file index: its resolved language
code and its `readlines()` content. -/
structure PoFile where
  language_code : String
  content_lines : List String
deriving DecidableEq

/-- `remove_po_lines` over the whole file index (the function's outer
loop; `payload = copy.deepcopy(po_index)` makes this pure). -/
def remove_po_lines_index (po_index : List PoFile) : List PoFile :=
  po_index.map (fun f => ⟨f.language_code, remove_po_lines f.content_lines⟩)

/-- A canonical rendered metadata block as produced by `get_po_lines` /
`format_po_lines`: a managed context line, a msgid line, a msgstr line
and a blank separator line. -/
def isCanonicalPoBlock (b : List String) : Bool :=
  match b with
  | [c, mi, ms, bl] =>
    startsCtxtTarget c && strStartsWith mi "msgid " &&
      strStartsWith ms "msgstr " && isBlankStr bl
  | _ => false

lemma rpl_step_clean (line : String) (h : startsCtxtTarget line = false) :
    rpl_step rplInit line = (rplInit, true) := by
  simp [rpl_step, rplInit, h]

lemma rpl_run_clean (P : List String)
    (h : ∀ l ∈ P, startsCtxtTarget l = false) (rest : List String) :
    rpl_run rplInit (P ++ rest) =
      (P ++ (rpl_run rplInit rest).1, (rpl_run rplInit rest).2) := by
  induction P with
  | nil => simp
  | cons p P2 ih =>
    have hp : startsCtxtTarget p = false := h p (by simp)
    have ih2 := ih (fun l hl => h l (by simp [hl]))
    simp [rpl_run, rpl_step_clean p hp, ih2]

lemma rpl_run_sublist : ∀ (s : RPLState) (ls : List String),
    (rpl_run s ls).1.Sublist ls := by
  intro s ls
  induction ls generalizing s with
  | nil => simp [rpl_run]
  | cons line rest ih =>
    simp only [rpl_run]
    by_cases hk : (rpl_step s line).2 = true
    · rw [if_pos hk]
      exact List.Sublist.cons₂ _ (ih _)
    · rw [if_neg hk]
      exact List.Sublist.cons _ (ih _)

lemma rpl_run_block (b rest : List String)
    (hb : isCanonicalPoBlock b = true) :
    rpl_run rplInit (b ++ rest) = rpl_run rplInit rest := by
  match b with
  | [] => simp [isCanonicalPoBlock] at hb
  | [c] => simp [isCanonicalPoBlock] at hb
  | [c, mi] => simp [isCanonicalPoBlock] at hb
  | [c, mi, ms] => simp [isCanonicalPoBlock] at hb
  | c :: mi :: ms :: bl :: x :: tl => simp [isCanonicalPoBlock] at hb
  | [c, mi, ms, bl] =>
    simp only [isCanonicalPoBlock, Bool.and_eq_true] at hb
    obtain ⟨⟨⟨hc, hmi⟩, hms⟩, hbl⟩ := hb
    simp [rpl_run, rpl_step, rplInit, hc, hmi, hms, hbl]

lemma rpl_run_blocks (blocks : List (List String))
    (hb : ∀ b ∈ blocks, isCanonicalPoBlock b = true) (rest : List String) :
    rpl_run rplInit (blocks.flatten ++ rest) = rpl_run rplInit rest := by
  induction blocks with
  | nil => simp
  | cons b bs ih =>
    have he : (b :: bs).flatten ++ rest = b ++ (bs.flatten ++ rest) := by
      simp [List.append_assoc]
    rw [he, rpl_run_block _ _ (hb b (by simp)),
      ih (fun x hx => hb x (by simp [hx]))]

/-- C1: stripping and anchored insertion are frame-exact.
`xml_remove_elements` keeps exactly the non-managed lines,
byte-identical and in order, and stripping after inserting managed
rendered lines at any position restores the stripped original.  The
per-file `remove_po_lines` pass returns a sublist of the input (every
retained line verbatim and in original relative order), retains a
block-free region verbatim, and stripping after inserting rendered
canonical blocks behind a block-free prefix yields exactly the strip of
the original, so no non-managed line is lost. -/
theorem strip_frame_and_anchor
    (l rendered : List String) (i : Nat)
    (hr : ∀ s ∈ rendered, isManagedXmlLine s = true)
    (P R : List String) (blocks : List (List String))
    (hP : ∀ s ∈ P, startsCtxtTarget s = false)
    (hb : ∀ b ∈ blocks, isCanonicalPoBlock b = true) :
    xml_remove_elements l = l.filter (fun s => !isManagedXmlLine s)
    ∧ xml_remove_elements (l.take i ++ rendered ++ l.drop i) =
        xml_remove_elements l
    ∧ (remove_po_lines (P ++ R)).Sublist (P ++ R)
    ∧ remove_po_lines (P ++ blocks.flatten ++ R) = remove_po_lines (P ++ R)
    ∧ remove_po_lines P = P := by
  refine ⟨xml_remove_elements_eq_filter l, ?_, ?_, ?_, ?_⟩
  · rw [xml_remove_elements_eq_filter, xml_remove_elements_eq_filter,
      List.filter_append, List.filter_append]
    have hnil : rendered.filter (fun s => !isManagedXmlLine s) = [] := by
      rw [List.filter_eq_nil_iff]
      intro a ha
      simp [hr a ha]
    rw [hnil]
    simp only [List.append_nil]
    rw [← List.filter_append, List.take_append_drop]
  · exact rpl_run_sublist _ _
  · show (rpl_run rplInit (P ++ blocks.flatten ++ R)).1 =
      (rpl_run rplInit (P ++ R)).1
    rw [List.append_assoc, rpl_run_clean P hP _, rpl_run_clean P hP R,
      rpl_run_blocks blocks hb R]
  · show (rpl_run rplInit P).1 = P
    have h := rpl_run_clean P hP []
    rw [List.append_nil] at h
    simp only [rpl_run] at h
    rw [h]
    simp

/-- C1 witness: the frame theorem applied to a concrete manifest, a
concrete rendered manifest line, and a concrete catalog split into a
header prefix, one rendered canonical block, and a remainder. -/
theorem strip_frame_and_anchor_witness :
    xml_remove_elements ["<a>\n", " <summary lang=\"en_GB\">t</summary>\n"] =
        (["<a>\n", " <summary lang=\"en_GB\">t</summary>\n"] : List String).filter
          (fun s => !isManagedXmlLine s)
    ∧ xml_remove_elements
          ((["<a>\n", " <summary lang=\"en_GB\">t</summary>\n"] : List String).take 1 ++
            ["<description lang=\"de_DE\">d</description>\n"] ++
            (["<a>\n", " <summary lang=\"en_GB\">t</summary>\n"] : List String).drop 1) =
        xml_remove_elements ["<a>\n", " <summary lang=\"en_GB\">t</summary>\n"]
    ∧ (remove_po_lines (["msgid \"\"\n"] ++ ["x\n"])).Sublist
        (["msgid \"\"\n"] ++ ["x\n"])
    ∧ remove_po_lines (["msgid \"\"\n"] ++
          ([["msgctxt \"Addon Summary\"\n", "msgid \"s\"\n", "msgstr \"\"\n", "\n"]] :
            List (List String)).flatten ++ ["x\n"]) =
        remove_po_lines (["msgid \"\"\n"] ++ ["x\n"])
    ∧ remove_po_lines ["msgid \"\"\n"] = ["msgid \"\"\n"] :=
  strip_frame_and_anchor
    ["<a>\n", " <summary lang=\"en_GB\">t</summary>\n"]
    ["<description lang=\"de_DE\">d</description>\n"] 1 (by decide)
    ["msgid \"\"\n"] ["x\n"]
    [["msgctxt \"Addon Summary\"\n", "msgid \"s\"\n", "msgstr \"\"\n", "\n"]]
    (by decide) (by decide)

/-! ## get_po_lines (lines 535-564) -/

/-- `get_po_lines(items, ctxt)`: if no item carries the language code
en_GB the function only logs and returns the empty list; otherwise it
renders one four-line block per input item (msgid always from the
en_GB item found first, msgstr empty for en_GB itself). -/
def get_po_lines (items : List (String × String)) (ctxt : String) :
    List (String × List String) :=
  match items.find? (fun item => item.1 == "en_GB") with
  | some en_gb =>
    items.map (fun item =>
      (item.1,
        [POTPL_MSGCTXT ctxt,
         POTPL_MSGID en_gb.2,
         POTPL_MSGSTR (if item.1 == "en_GB" then "" else item.2),
         "\n"]))
  | none => []

/-- C7: for every field context, an item list with no en_GB entry makes
get_po_lines return the empty list (the field is omitted entirely, no
exception), and an item list containing an en_GB entry yields exactly
one rendered block per input item, in order, keyed by the items'
language codes. -/
theorem get_po_lines_reference_language (items : List (String × String))
    (ctxt : String) :
    ((∀ p ∈ items, p.1 ≠ "en_GB") → get_po_lines items ctxt = [])
    ∧ (∀ e ∈ items, e.1 = "en_GB" →
        (get_po_lines items ctxt).length = items.length
        ∧ (get_po_lines items ctxt).map Prod.fst = items.map Prod.fst) := by
  constructor
  · intro h
    have hfind : items.find? (fun item => item.1 == "en_GB") = none := by
      rw [List.find?_eq_none]
      intro p hp
      simp [h p hp]
    simp [get_po_lines, hfind]
  · intro e he hegb
    rcases hcase : items.find? (fun item => item.1 == "en_GB") with _ | x
    · rw [List.find?_eq_none] at hcase
      exact absurd (by simp [hegb]) (hcase e he)
    · constructor <;> simp [get_po_lines, hcase]

/-- C7 witness: the reference-language theorem applied to a concrete
list without en_GB and a concrete list with en_GB. -/
theorem get_po_lines_reference_language_witness :
    get_po_lines [("de_DE", "x")] CTXT_SUMMARY = []
    ∧ (get_po_lines [("en_GB", "hi"), ("de_DE", "hallo")] CTXT_SUMMARY).length =
        ([("en_GB", "hi"), ("de_DE", "hallo")] : List (String × String)).length :=
  ⟨(get_po_lines_reference_language [("de_DE", "x")] CTXT_SUMMARY).1 (by decide),
   ((get_po_lines_reference_language [("en_GB", "hi"), ("de_DE", "hallo")]
      CTXT_SUMMARY).2 ("en_GB", "hi") (by decide) rfl).1⟩

/-! ## get_po_insert_index (lines 628-655) -/

/-- The loop of `get_po_insert_index`: find the first line starting
with an empty `msgstr ""`, then the first following continuation line
(starting with a quote), then return the index one past the first
subsequent non-continuation line; -1 when the pattern never
completes. -/
def gpii_aux : List String → Nat → Bool → Bool → Int
  | [], _, _, _ => -1
  | line :: rest, idx, msgstr, first_quote =>
    if !msgstr && strStartsWith line "msgstr \"\"" then
      gpii_aux rest (idx + 1) true first_quote
    else if msgstr && !first_quote && strStartsWith line "\"" then
      gpii_aux rest (idx + 1) msgstr true
    else if msgstr && first_quote && !(strStartsWith line "\"") then
      (idx : Int) + 1
    else
      gpii_aux rest (idx + 1) msgstr first_quote

/-- `get_po_insert_index(po_file)`. -/
def get_po_insert_index (po_file : List String) : Int :=
  gpii_aux po_file 0 false false

/-! ## format_po_lines (lines 658-694) -/

/-- Python `list(zip(*(iter(po_lines),) * 3))`: consecutive triples,
remainder dropped. -/
def group3 : List String → List (String × String × String)
  | a :: b :: c :: rest => (a, b, c) :: group3 rest
  | _ => []

/-- The sorting weight assigned by `format_po_lines`; triples whose
first line matches none of the four context prefixes are dropped. -/
def fplWeight (t : String × String × String) : Option Nat :=
  if strStartsWith t.1 ("msgctxt \"" ++ CTXT_SUMMARY ++ "\"") then some 0
  else if strStartsWith t.1 ("msgctxt \"" ++ CTXT_DESCRIPTION ++ "\"") then some 1
  else if strStartsWith t.1 ("msgctxt \"" ++ CTXT_DISCLAIMER ++ "\"") then some 2
  else if strStartsWith t.1 ("msgctxt \"" ++ CTXT_LIFECYCLESTATE ++ "\"") then some 3
  else none

/-- `format_po_lines(po_lines)`: drop blank lines, group in threes,
weight by field kind, sort by weight, then flatten each triple followed
by a blank separator line.  Python's `list.sort` is stable and the key
takes only the four values 0..3, so the stable sort equals
concatenating the weight classes in encounter order. -/
def format_po_lines (po_lines : List String) : List String :=
  let nonblank := po_lines.filter (fun l => !isBlankStr l)
  let weighted := (group3 nonblank).filterMap
    (fun t => (fplWeight t).map (fun w => (t, w)))
  let sorted :=
    weighted.filter (fun p => p.2 == 0) ++ weighted.filter (fun p => p.2 == 1) ++
    weighted.filter (fun p => p.2 == 2) ++ weighted.filter (fun p => p.2 == 3)
  (sorted.map (fun p => p.1)).foldr
    (fun t acc => [t.1, t.2.1, t.2.2, "\n"] ++ acc) []

/-! ## insert_po_lines (lines 697-739) -/

/-- Python `po_lines.get(key)` with the preceding `key in languages`
guard: the lines stored for that language code, or `[]`. -/
def lookupLines (po_lines : List (String × List String)) (k : String) :
    List String :=
  match po_lines.find? (fun p => p.1 == k) with
  | some p => p.2
  | none => []

/-- The "remove whitespace from eof" loop (lines 730-734): delete
blank lines from the end until the first non-blank line. -/
def removeTrailingBlanks (lines : List String) : List String :=
  (lines.reverse.dropWhile isBlankStr).reverse

/-- One iteration of the `insert_po_lines` loop.  Returns the pair
(po_item after the loop, payload entry after the loop): when the
selected `insert_lines` are nonempty the payload entry becomes the
splice of the formatted lines at `insert_index` (Python slicing, so an
index of -1 splices before the final line) with trailing blank lines
removed, and the *input* `po_item` — not the payload — gets the
"ensure one new line at end of file" `+= ['\n']`. -/
def insert_po_lines_one (po_item : PoFile)
    (po_lines : List (String × List String)) : PoFile × PoFile :=
  let insert_index := get_po_insert_index po_item.content_lines
  let languages := po_lines.map Prod.fst
  let insert_lines :=
    if po_item.language_code ∈ languages then
      lookupLines po_lines po_item.language_code
    else if "en_GB" ∈ languages then
      lookupLines po_lines "en_GB"
    else []
  if insert_lines ≠ [] then
    let fl := format_po_lines insert_lines
    let spliced := pySliceTo po_item.content_lines insert_index ++ fl ++
      pySliceFrom po_item.content_lines insert_index
    (⟨po_item.language_code, po_item.content_lines ++ ["\n"]⟩,
     ⟨po_item.language_code, removeTrailingBlanks spliced⟩)
  else (po_item, po_item)

/-- `insert_po_lines(po_index, po_lines)`: first component is the
(mutated-in-place) input index, second the returned payload (the
deep-copied index with updated content lines). -/
def insert_po_lines (po_index : List PoFile)
    (po_lines : List (String × List String)) : List PoFile × List PoFile :=
  (po_index.map (fun f => (insert_po_lines_one f po_lines).1),
   po_index.map (fun f => (insert_po_lines_one f po_lines).2))

/-- C8: evaluation of insert_po_lines on a catalog whose last line has
no trailing newline.  Trailing blank lines are removed, but the
"ensure one new line at end of file" append goes to the *input* index
entry (po_item), not to the returned payload, so the resulting line
sequence ends in "last" with no terminating newline at all. -/
theorem insert_po_lines_newline_bug :
    get_po_insert_index
        ["msgid \"\"\n", "msgstr \"\"\n", "\"x\"\n", "tail\n", "last"] = 4
    ∧ insert_po_lines
        [⟨"en_GB", ["msgid \"\"\n", "msgstr \"\"\n", "\"x\"\n", "tail\n", "last"]⟩]
        [("en_GB",
          ["msgctxt \"Addon Summary\"\n", "msgid \"Hello\"\n", "msgstr \"\"\n", "\n"])] =
      ([⟨"en_GB",
          ["msgid \"\"\n", "msgstr \"\"\n", "\"x\"\n", "tail\n", "last", "\n"]⟩],
       [⟨"en_GB",
          ["msgid \"\"\n", "msgstr \"\"\n", "\"x\"\n", "tail\n",
           "msgctxt \"Addon Summary\"\n", "msgid \"Hello\"\n", "msgstr \"\"\n", "\n",
           "last"]⟩])
    ∧ (["msgid \"\"\n", "msgstr \"\"\n", "\"x\"\n", "tail\n",
        "msgctxt \"Addon Summary\"\n", "msgid \"Hello\"\n", "msgstr \"\"\n", "\n",
        "last"] : List String).getLast? = some "last"
    ∧ ("last".data.contains '\n') = false := by
  refine ⟨by decide, by decide, by decide, by decide⟩

/-- C9: evaluation of insert_po_lines on a catalog with no empty
`msgstr ""` header block, so get_po_insert_index returns -1.  The skip
message is printed, but the splice still happens with index -1: Python
slicing turns `lines[:-1] + rendered + lines[-1:]` into an insertion of
the rendered block before the last line, so the catalog does receive
the rendered lines, contradicting the claim that it is left without
them. -/
theorem insert_po_lines_skip_bug :
    get_po_insert_index ["a\n", "b\n"] = -1
    ∧ insert_po_lines [⟨"en_GB", ["a\n", "b\n"]⟩]
        [("en_GB",
          ["msgctxt \"Addon Summary\"\n", "msgid \"Hello\"\n", "msgstr \"\"\n", "\n"])] =
      ([⟨"en_GB", ["a\n", "b\n", "\n"]⟩],
       [⟨"en_GB",
          ["a\n", "msgctxt \"Addon Summary\"\n", "msgid \"Hello\"\n", "msgstr \"\"\n",
           "\n", "b\n"]⟩])
    ∧ (insert_po_lines [⟨"en_GB", ["a\n", "b\n"]⟩]
        [("en_GB",
          ["msgctxt \"Addon Summary\"\n", "msgid \"Hello\"\n", "msgstr \"\"\n", "\n"])]).2 ≠
      [⟨"en_GB", ["a\n", "b\n"]⟩] := by
  refine ⟨by decide, by decide, by decide⟩

/-! ## The write decision of po_to_xml (lines 878, 926-939) -/

/-- The final phase of `po_to_xml`: strip the managed elements (line
878 rebinds `addon_xml` in place, so `addon_xml['content_lines']` is
the stripped list afterwards), locate the insert index on the stripped
lines, splice the rendered lines in, and decide the write by comparing
the payload against `addon_xml['content_lines']` — which at that point
is the *stripped* list, not the original one.  Returns `none` when
`get_xml_insert_index` raises, else `some (write?, payload)`. -/
def po_to_xml_step (content_lines rendered : List String) :
    Option (Bool × List String) :=
  let stripped := xml_remove_elements content_lines
  (get_xml_insert_index stripped).map (fun n =>
    let payload := pySliceTo stripped n ++ rendered ++ pySliceFrom stripped n
    (decide (payload ≠ stripped), payload))

/-- C5: evaluation of the po_to_xml write decision on a manifest that
is already in sync with its catalog.  The merged, escaped en_GB summary
renders to exactly the manifest's existing summary line, so the payload
equals the original content lines — yet the write flag is `true`,
because line 878's in-place rebinding makes the comparison run against
the element-stripped lines instead of the original ones.  The code
writes (and reports "addon.xml has been modified") although the
regenerated content is identical to the file's original content. -/
theorem po_to_xml_write_decision_bug :
    merge_items [("en_GB", "Hello")] [("en_GB", "Hello")] = [("en_GB", "Hello")]
    ∧ escape_characters [("en_GB", "Hello")] "xml" = [("en_GB", "Hello")]
    ∧ XMLTPL_SUMMARY "    " "en_GB" "Hello" =
        "    <summary lang=\"en_GB\">Hello</summary>\n"
    ∧ po_to_xml_step
        ["<extension point=\"xbmc.addon.metadata\">\n",
         "    <summary lang=\"en_GB\">Hello</summary>\n",
         "</extension>\n"]
        [XMLTPL_SUMMARY "    " "en_GB" "Hello"] =
      some (true,
        ["<extension point=\"xbmc.addon.metadata\">\n",
         "    <summary lang=\"en_GB\">Hello</summary>\n",
         "</extension>\n"]) := by
  refine ⟨by decide, by decide, by decide, by decide⟩

/-! ## language_code_from_path (lines 319-339) -/

/-- Regex class `[a-z]`. -/
def isLowerAZ (c : Char) : Bool := 'a' ≤ c && c ≤ 'z'

/-- Regex class `[A-Za-z]`. -/
def isAlphaAZ (c : Char) : Bool := isLowerAZ c || ('A' ≤ c && c ≤ 'Z')

/-- The literal part of the search pattern. -/
def rlPrefix : List Char := "resource.language.".data

/-- Matching the capture group
`[a-z]{2,3}(?:_[A-Za-z]{2})?(?:@\S+)?` at the current position.  The
`{2,3}` quantifier is greedy; since the two following groups are
optional they can never fail, so no backtracking over the quantifier is
needed: take a third lowercase letter when present, then the optional
`_XX` region, then the optional `@`-modifier (`\S+` taken greedily,
requiring at least one non-space character). -/
def matchCode (cs : List Char) : Option (List Char) :=
  match cs with
  | a :: b :: rest =>
    if isLowerAZ a && isLowerAZ b then
      let lr : List Char × List Char :=
        match rest with
        | c :: rest2 => if isLowerAZ c then ([a, b, c], rest2) else ([a, b], rest)
        | [] => ([a, b], [])
      let rr : List Char × List Char :=
        match lr.2 with
        | '_' :: r1 :: r2 :: rest2 =>
          if isAlphaAZ r1 && isAlphaAZ r2 then (['_', r1, r2], rest2)
          else ([], lr.2)
        | _ => ([], lr.2)
      let ext : List Char :=
        match rr.2 with
        | '@' :: t =>
          let run := t.takeWhile (fun ch => !isPySpace ch)
          if run.isEmpty then [] else '@' :: run
        | _ => []
      some (lr.1 ++ rr.1 ++ ext)
    else none
  | _ => none

/-- `re.search` for the pattern: try the literal prefix followed by the
capture group at each position, left to right, returning the first
captured `language_code`. -/
def lcfpScan : List Char → Option (List Char)
  | [] => none
  | c :: rest =>
    if rlPrefix.isPrefixOf (c :: rest) then
      match matchCode ((c :: rest).drop rlPrefix.length) with
      | some code => some code
      | none => lcfpScan rest
    else lcfpScan rest

/-- Python `s.split(sep)` on character lists. -/
def pySplit (sep : Char) : List Char → List (List Char)
  | [] => [[]]
  | c :: rest =>
    if c = sep then [] :: pySplit sep rest
    else
      match pySplit sep rest with
      | h :: t => (c :: h) :: t
      | [] => [[c]]

/-- The normalization step of `language_code_from_path` (lines
334-337): when the code contains an underscore, keep the part before
the first underscore, uppercase the first *two* characters of the part
after it, keep that part's remaining characters, and join only these
two parts (any further underscore-separated parts are dropped). -/
def normalizeCode (cs : List Char) : List Char :=
  if cs.contains '_' then
    match pySplit '_' cs with
    | p0 :: p1 :: _ => p0 ++ '_' :: ((p1.take 2).map Char.toUpper ++ p1.drop 2)
    | _ => cs
  else cs

/-- `language_code_from_path(language_path)`: empty string when the
pattern does not occur. -/
def language_code_from_path (language_path : String) : String :=
  match lcfpScan language_path.data with
  | some code => ⟨normalizeCode code⟩
  | none => ""

/-- C10 counterexample: for the path "resource.language.pt_br" the code
returns "pt_BR" — both region letters uppercased — whereas the claim
("only the region's first letter is uppercased and the remaining region
characters are preserved as written") demands "pt_Br". -/
theorem language_code_from_path_counterexample :
    language_code_from_path "resource.language.pt_br" = "pt_BR"
    ∧ language_code_from_path "resource.language.pt_br" ≠ "pt_Br" := by
  refine ⟨by decide, by decide⟩

/-- C10 (amended): whenever the pattern search captures a code of the
form ll_rr (two-letter language, two-letter region, no modifier), the
returned language code uppercases the first *two* characters of the
region — that is, the whole region — rather than only its first
letter. -/
theorem language_code_from_path_region_casing
    (path : String) (c1 c2 r1 r2 : Char)
    (hscan : lcfpScan path.data = some [c1, c2, '_', r1, r2])
    (h1 : c1 ≠ '_') (h2 : c2 ≠ '_') (h3 : r1 ≠ '_') (h4 : r2 ≠ '_') :
    language_code_from_path path = ⟨[c1, c2, '_', r1.toUpper, r2.toUpper]⟩ := by
  unfold language_code_from_path
  rw [hscan]
  have hc : ([c1, c2, '_', r1, r2].contains '_') = true := by
    simp
  have hsplit : pySplit '_' [c1, c2, '_', r1, r2] = [[c1, c2], [r1, r2]] := by
    simp [pySplit, h1, h2, h3, h4]
  show String.mk (normalizeCode [c1, c2, '_', r1, r2]) =
    String.mk [c1, c2, '_', r1.toUpper, r2.toUpper]
  unfold normalizeCode
  rw [if_pos hc, hsplit]
  rfl

/-- C10 witness: the amended casing theorem applied to the path
"resource.language.pt_br". -/
theorem language_code_from_path_region_casing_witness :
    language_code_from_path "resource.language.pt_br" =
      ⟨['p', 't', '_', 'b'.toUpper, 'r'.toUpper]⟩ :=
  language_code_from_path_region_casing "resource.language.pt_br"
    'p' 't' 'b' 'r' (by decide) (by decide) (by decide) (by decide) (by decide)
